import Mathlib

/-!
Shallow embedding of the Maizone plugin (QQ-space automation) core, translated
from the Python sources `qzone_api.py`, `cookie_manager.py` and
`scheduled_tasks.py`, together with theorems settling the specification
claims about token derivation, response handling, feed filtering, credential
fallback, and the deduplicating feed monitor.

Modelling conventions:
* Python's unbounded `int` is `Nat`/`Int`; the single bit-mask in the code
  (`& 2147483647`) is written as `% 2147483648`.
* Network I/O is represented by passing the (already received) response data
  as an argument; third-party library calls (`json5.loads`, the LLM, the
  send endpoints) are oracle parameters, so theorems quantify over their
  behaviour.
* Python `dict`s that are used as insertion-ordered maps (`processed_list`,
  `processed_comments`) are association lists; `d[k] = v` updates in place
  when the key exists and appends otherwise, `next(iter(d))` is the head.
-/

namespace Maizone

/-! ## Signing token: `qzone_api.generate_gtk` -/

/-- Numeric value computed by `generate_gtk` (qzone_api.py lines 19-24):
`hash_val = 5381`, then for each character `hash_val += (hash_val << 5) + ord(c)`,
finally `hash_val & 2147483647`. -/
def generate_gtk_val (skey : String) : Nat :=
  (skey.data.foldl (fun h c => h + (h * 32 + c.toNat)) 5381) % 2147483648

/-- `generate_gtk` as in the source returns `str(...)` of the masked value. -/
def generate_gtk (skey : String) : String :=
  toString (generate_gtk_val skey)

/-! ## `qzone_api.extract_code` and `QzoneAPI.reply`

`extract_code` walks the `<script>` tags of the HTML body (what
`BeautifulSoup.find_all('script')` would yield is taken as the input list,
each element being the tag's `.string`, `none` when absent), locates the
`frameElement.callback(...)` invocation by substring search exactly as the
Python string arithmetic does, and hands the sliced text to `json5.loads(...)
.get("code")`, abstracted as the `json5Code` oracle (`none` covers both a
parse exception and a missing `code` key, each of which makes the Python
function return `None`). -/

def isPrefixCl : List Char → List Char → Bool
  | [], _ => true
  | _ :: _, [] => false
  | a :: as, b :: bs => a == b && isPrefixCl as bs

/-- Index of the first occurrence of `pat` in the list (Python `str.find`,
but `none` instead of `-1`). -/
def findSubIdx (pat : List Char) : List Char → Option Nat
  | [] => if pat.isEmpty then some 0 else none
  | c :: rest =>
    if isPrefixCl pat (c :: rest) then some 0
    else (findSubIdx pat rest).map (· + 1)

/-- Python's `in` operator on strings. -/
def containsSub (pat s : List Char) : Bool :=
  (findSubIdx pat s).isSome

/-- Index of the last occurrence of `pat` (Python `str.rfind`, `none` for `-1`). -/
def rfindSubIdx (pat s : List Char) : Option Nat :=
  match findSubIdx pat.reverse s.reverse with
  | some i => some (s.length - pat.length - i)
  | none => none

/-- Python `str.strip()` restricted to the usual whitespace characters. -/
def stripWs (s : List Char) : List Char :=
  ((s.dropWhile Char.isWhitespace).reverse.dropWhile Char.isWhitespace).reverse

def callbackPat : List Char := "frameElement.callback".data

def closeParenSemi : List Char := ");".data

/-- `extract_code` (qzone_api.py lines 45-63).  For the first script text that
is non-empty and contains `frameElement.callback`, compute
`start = find('frameElement.callback(') + 22` and `end = rfind(');')` (both
`-1` based, hence `Int`); when `0 < start < end`, strip the slice, drop one
trailing `;`, and return the decoded `code` field.  Scripts failing the index
check are passed over, and exhaustion returns `none`. -/
def extract_code (json5Code : List Char → Option Int) :
    List (Option (List Char)) → Option Int
  | [] => none
  | none :: rest => extract_code json5Code rest
  | some s :: rest =>
    if !s.isEmpty && containsSub callbackPat s then
      let start : Int :=
        (match findSubIdx (callbackPat ++ ['(']) s with
         | some i => (i : Int)
         | none => -1) + 22
      let stop : Int :=
        match rfindSubIdx closeParenSemi s with
        | some i => (i : Int)
        | none => -1
      if 0 < start ∧ start < stop then
        let sliced := (s.drop start.toNat).take (stop - start).toNat
        let js := stripWs sliced
        let js := if js.getLast? == some ';' then js.dropLast else js
        json5Code js
      else
        extract_code json5Code rest
    else
      extract_code json5Code rest

/-- The data of the HTTP response to the reply request: transport status and
the script texts of the HTML body. -/
structure ReplyResponse where
  status : Nat
  scripts : List (Option (List Char))

/-- `QzoneAPI.reply` decision logic (qzone_api.py lines 387-404): on transport
status 200 it returns `False` unless the embedded response code is exactly
`0`; on any other status it raises. -/
def reply (json5Code : List Char → Option Int) (res : ReplyResponse) :
    Except String Bool :=
  if res.status == 200 then
    if extract_code json5Code res.scripts != some 0 then Except.ok false
    else Except.ok true
  else
    Except.error ("回复失败，错误码: " ++ toString res.status)

/-! ## `QzoneAPI.get_list` (qzone_api.py lines 406-549)

The response is modelled after the transport and JSON layers: `status` is the
HTTP status, and a `ListPayload` is the already-parsed JSON document (the
claims under study only concern well-formed payloads; the `json.loads` /
missing-`logininfo` exception branch, which produces the generic
`[{"error": f"{e},你没有看到任何东西"}]` marker, is not modelled).  Image and
video fetching only decorates each returned item and cannot influence which
items are kept, so a message carries its resolved image descriptions
directly. -/

/-- One element of a message's `commentlist`. -/
structure RComment where
  name : String
  content : String
  uin : String
  createTime : String
  createTime2 : String
deriving DecidableEq, Repr

/-- One element of `msglist`.  `rt_con` is `none` when the key is absent;
`commentlist` is `none` when absent or not a list. -/
structure FeedMsg where
  tid : String
  created_time : String
  content : String
  images : List String
  videos : List (Option String)
  rt_con : Option String
  commentlist : Option (List RComment)
deriving DecidableEq, Repr

/-- The parsed JSON payload of the msglist endpoint. -/
structure ListPayload where
  logininfo_name : String
  code : Int
  message : String
  msglist : List FeedMsg
deriving DecidableEq, Repr

structure OutComment where
  content : String
  uin : String
  created_time : String
deriving DecidableEq, Repr

/-- One element of the returned list: either the error marker dictionary or a
feed dictionary. -/
inductive ListEntry where
  | err (msg : String)
  | feed (tid : String) (created_time : String) (content : String)
      (images : List String) (videos : List (Option String))
      (rt_con : String) (comments : List OutComment)
deriving DecidableEq, Repr

/-- Comment extraction for a kept message: `createTime or createTime2`. -/
def buildComment (c : RComment) : OutComment :=
  { content := c.content
    uin := c.uin
    created_time := if c.createTime == "" then c.createTime2 else c.createTime }

/-- The dictionary appended to `feeds_list` for a message that is kept. -/
def buildEntry (m : FeedMsg) : ListEntry :=
  ListEntry.feed m.tid m.created_time m.content m.images m.videos
    (m.rt_con.getD "") ((m.commentlist.getD []).map buildComment)

/-- The "already commented" skip test of lines 471-480: some comment's `name`
equals the logged-in nickname and the listing does not target the agent's own
account. -/
def msgSkipped (uin_nickname target_qq : String) (uin : Nat) (m : FeedMsg) :
    Bool :=
  match m.commentlist with
  | some cl => cl.any (fun c => c.name == uin_nickname && target_qq != toString uin)
  | none => false

/-- The messages surviving the skip test. -/
def keptMsgs (uin : Nat) (target_qq : String) (p : ListPayload) : List FeedMsg :=
  p.msglist.filter (fun m => !(msgSkipped p.logininfo_name target_qq uin m))

/-- Fixed message of the empty-result marker (line 544). -/
def nothingNewMsg : String := "你已经看过最近的所有说说了，没有必要再看一遍"

/-- `QzoneAPI.get_list`: raise on non-200; error marker with the remote
message on nonzero application code; otherwise filter, and return the
"nothing new" marker when the filter leaves no items. -/
def get_list (uin : Nat) (target_qq : String) (status : Nat)
    (p : ListPayload) : Except String (List ListEntry) :=
  if status != 200 then Except.error ("访问失败: " ++ toString status)
  else if p.code != 0 then Except.ok [ListEntry.err p.message]
  else
    let feeds := (keptMsgs uin target_qq p).map buildEntry
    if feeds.length == 0 then Except.ok [ListEntry.err nothingNewMsg]
    else Except.ok feeds

/-! ## `cookie_manager.renew_cookies` (cookie_manager.py lines 232-355)

State threaded explicitly: `lastQr` is the module global `_last_qr_login_time`
(`0` meaning never set), `localFile` is the on-disk per-account cookie file
(`none` when absent, else the stored bundle).  Time is a `Nat` of seconds; the
Python float comparisons `t < 3600` / `t < 20*3600` on a possibly negative
difference agree with truncated `Nat` subtraction because both bounds are
positive.  A credential bundle is abstracted to an identifier `String`.
Each acquisition strategy's outcome is an oracle field, `none` standing for
the strategy raising/failing. -/

inductive Method where
  | napcat
  | clientkey
  | qrcode
  | local
deriving DecidableEq, Repr

structure CookieState where
  lastQr : Nat
  localFile : Option String
deriving DecidableEq, Repr

structure CookieOracle where
  napcat : Option String
  clientkey : Option String
  qrcode : Option String
deriving DecidableEq, Repr

/-- `should_skip_qr_login` (lines 36-45): never skip before any login is
recorded; otherwise skip within 20 hours of the recorded timestamp. -/
def should_skip_qr_login (lastQr now : Nat) : Bool :=
  if lastQr == 0 then false else now - lastQr < 20 * 3600

/-- Outcome of one acquisition attempt per strategy; `local` reads the
on-disk file. -/
def attemptResult (ora : CookieOracle) (st : CookieState) : Method → Option String
  | Method.napcat => ora.napcat
  | Method.clientkey => ora.clientkey
  | Method.qrcode => ora.qrcode
  | Method.local => st.localFile

/-- The strategy loop of lines 277-313: first success breaks; a `qrcode`
entry is passed over (not attempted) while `should_skip_qr_login` holds;
failures are swallowed and iteration continues.  Returns the list of
strategies actually attempted and the adopted bundle, if any. -/
def tryMethods (ora : CookieOracle) (st : CookieState) (now : Nat) :
    List Method → List Method × Option String
  | [] => ([], none)
  | m :: rest =>
    if m == Method.qrcode && should_skip_qr_login st.lastQr now then
      tryMethods ora st now rest
    else
      match attemptResult ora st m with
      | some b => ([m], some b)
      | none =>
        let (att, r) := tryMethods ora st now rest
        (m :: att, r)

inductive RenewResult where
  | skipped
  | success (bundle : String)
  | failure
deriving DecidableEq, Repr

/-- `renew_cookies`: the 1-hour minimum-refresh gate (lines 250-255, driven by
the same `_last_qr_login_time`), the empty-methods default (lines 262-265),
the strategy loop, the local-file fallback (lines 316-325), the final error
(lines 328-332), and on success the persist step plus
`update_last_qr_login_time()` (lines 334-342), which overwrites `lastQr` with
the current time for every strategy.  Returns the attempted strategies (the
fallback read counted as a final `local`), the outcome, and the new state. -/
def renew_cookies (ora : CookieOracle) (st : CookieState) (now : Nat)
    (methods : List Method) (fallback_to_local : Bool) :
    List Method × RenewResult × CookieState :=
  if now - st.lastQr < 3600 && st.lastQr != 0 then
    ([], RenewResult.skipped, st)
  else
    match tryMethods ora st now
        (if methods.isEmpty then
          [Method.napcat, Method.clientkey, Method.qrcode, Method.local]
         else methods) with
    | (att, some b) => (att, RenewResult.success b, ⟨now, some b⟩)
    | (att, none) =>
      if fallback_to_local then
        match st.localFile with
        | some b => (att ++ [Method.local], RenewResult.success b, ⟨now, some b⟩)
        | none => (att ++ [Method.local], RenewResult.failure, st)
      else
        (att, RenewResult.failure, st)

/-! ## `FeedMonitor.check_feeds` (scheduled_tasks.py lines 231-454)

The two dedup dictionaries are insertion-ordered association lists from feed
id to a list of comment ids.  The loop body is embedded from line 278 on;
the preliminary configuration reads, the cookie renewal and the feed
download (lines 248-276, each of which aborts the whole call on failure) are
outside the loop and not needed by any claim, so `check_feeds` here receives
the downloaded `feeds_list` and the silent-window verdict directly.  QQ
account numbers are `Nat` (the code compares them as strings or via `int(...)`
interchangeably).  LLM calls, the send endpoints and the two `random.random()`
probability gates are oracle functions; an action list records the protocol
writes that succeeded, plus the per-item `_save_processed_list` persistence
call of line 450. -/

/-- An insertion-ordered Python dict `str -> list[str]` (keys unique by
construction, first occurrence authoritative). -/
abbrev Store := List (String × List String)

/-- Python `k in d`. -/
def dictMem : Store → String → Bool
  | [], _ => false
  | p :: rest, k => p.1 == k || dictMem rest k

/-- Python `d.get(k, dflt)`. -/
def dictGetD : Store → String → List String → List String
  | [], _, dflt => dflt
  | p :: rest, k, dflt => if p.1 == k then p.2 else dictGetD rest k dflt

/-- Python `d[k] = v`: in-place update when the key exists (position kept),
append at the end otherwise. -/
def dictSet : Store → String → List String → Store
  | [], k, v => [(k, v)]
  | p :: rest, k, v =>
    if p.1 == k then (p.1, v) :: rest else p :: dictSet rest k v

/-- Python `d.setdefault(k, []).append(x)`. -/
def setdefaultAppend : Store → String → String → Store
  | [], k, x => [(k, [x])]
  | p :: rest, k, x =>
    if p.1 == k then (p.1, p.2 ++ [x]) :: rest else p :: setdefaultAppend rest k x

/-- `while len(d) > cap: d.pop(next(iter(d)))` — drop oldest entries until
the size bound holds. -/
def evictOldest (cap : Nat) : Store → Store
  | [] => []
  | p :: rest =>
    if (p :: rest).length ≤ cap then p :: rest else evictOldest cap rest

/-- Lines 445-449: record a feed id, then enforce the cache bound. -/
def insertFeedRecord (cap : Nat) (d : Store) (fid : String) : Store :=
  evictOldest cap (dictSet d fid [])

/-- A comment of a monitored feed, as produced by `monitor_get_list`. -/
structure FComment where
  qq_account : Nat
  nickname : String
  comment_tid : String
  content : String
  created_time : String
deriving DecidableEq, Repr

/-- A feed item, as produced by `monitor_get_list`. -/
structure Feed where
  tid : String
  target_qq : Nat
  content : String
  images : List String
  rt_con : String
  comments : List FComment
deriving DecidableEq, Repr

/-- The configuration values read by `check_feeds`, with the silent-window
verdict of `_is_in_silent_period` already computed. -/
structure MonitorConfig where
  qq_account : Nat
  is_silent : Bool
  allow_like : Bool
  allow_comment : Bool
  enable_auto_reply : Bool
  feeds_cap : Nat
  comments_cap : Nat
deriving Repr

/-- Oracles for the nondeterministic calls of one pass: LLM generation
success, endpoint success (`reply_feed` keyed by comment id, `comment_feed`
and `like_feed` keyed by feed id), and the two probability gates (`random()
<= possibility`, keyed by feed id). -/
structure FeedOracle where
  llmReplyOk : FComment → Bool
  replySendOk : String → Bool
  llmCommentOk : Feed → Bool
  commentGate : String → Bool
  commentSendOk : String → Bool
  likeGate : String → Bool
  likeSendOk : String → Bool

/-- Observable effects of a pass: successful protocol writes and the
persistence call after recording a processed feed. -/
inductive FAction where
  | reply (fid : String) (comment_tid : String)
  | comment (fid : String)
  | like (fid : String)
  | saveList
deriving DecidableEq, Repr

/-- The mutable state: `processed_list` and `processed_comments`. -/
structure St where
  pl : Store
  pc : Store
deriving DecidableEq, Repr

/-- Lines 308-361: reply to each pending comment of an own feed in turn.
A generation or send failure makes `check_feeds` return immediately (the
`some (ok, msg)` component); each successful reply is recorded in
`processed_comments` before the next one (lines 355-360). -/
def processReplies (cfg : MonitorConfig) (ora : FeedOracle) (fid : String) :
    List FComment → Store → Store × List FAction × Option (Bool × String)
  | [], pc => (pc, [], none)
  | c :: rest, pc =>
    if !ora.llmReplyOk c then (pc, [], some (false, "生成回复内容失败"))
    else if !ora.replySendOk c.comment_tid then (pc, [], some (false, "回复评论失败"))
    else
      let pc1 := evictOldest cfg.comments_cap (setdefaultAppend pc fid c.comment_tid)
      let (pc2, acts, ex) := processReplies cfg ora fid rest pc1
      (pc2, FAction.reply fid c.comment_tid :: acts, ex)

/-- Lines 297-304: the comments of an own feed still awaiting a reply —
not from the agent itself and not yet recorded in `processed_comments`. -/
def toReplyOf (cfg : MonitorConfig) (st : St) (f : Feed) : List FComment :=
  f.comments.filter (fun c =>
    c.qq_account != cfg.qq_account &&
      !(dictGetD st.pc f.tid []).contains c.comment_tid)

/-- Lines 424-432: commenting is gated by the silent-window permission and
the probability draw; `none` means the send was attempted and failed (which
aborts the call), `some acts` the performed writes. -/
def commentStep (cfg : MonitorConfig) (ora : FeedOracle) (fid : String) :
    Option (List FAction) :=
  if cfg.allow_comment && ora.commentGate fid then
    (if ora.commentSendOk fid then some [FAction.comment fid] else none)
  else some []

/-- Lines 434-443: the analogous like gate. -/
def likeStep (cfg : MonitorConfig) (ora : FeedOracle) (fid : String) :
    Option (List FAction) :=
  if cfg.allow_like && ora.likeGate fid then
    (if ora.likeSendOk fid then some [FAction.like fid] else none)
  else some []

/-- One iteration of the `for feed in feeds_list` loop (lines 282-450).
Returns the new state, the actions performed, and `some (ok, msg)` when the
iteration makes the whole `check_feeds` call return. -/
def processFeed (cfg : MonitorConfig) (ora : FeedOracle) (st : St) (f : Feed) :
    St × List FAction × Option (Bool × String) :=
  if f.target_qq == cfg.qq_account then
    if !cfg.enable_auto_reply then (st, [], none)
    else
      if (toReplyOf cfg st f).isEmpty then (st, [], none)
      else
        let pr := processReplies cfg ora f.tid (toReplyOf cfg st f) st.pc
        ({ st with pc := pr.1 }, pr.2.1, pr.2.2)
  else
    if dictMem st.pl f.tid then (st, [], none)
    else if !ora.llmCommentOk f then (st, [], some (false, "生成评论内容失败"))
    else
      match commentStep cfg ora f.tid with
      | none => (st, [], some (false, "评论说说失败"))
      | some ca =>
        match likeStep cfg ora f.tid with
        | none => (st, ca, some (false, "点赞说说失败"))
        | some la =>
          ({ st with pl := insertFeedRecord cfg.feeds_cap st.pl f.tid },
           ca ++ la ++ [FAction.saveList], none)

/-- The feed loop: stop with the early result when an iteration returns one,
else accumulate actions and finish with `(True, 'success')` (line 451). -/
def checkFeedsLoop (cfg : MonitorConfig) (ora : FeedOracle) :
    List Feed → St → St × List FAction × Bool × String
  | [], st => (st, [], true, "success")
  | f :: rest, st =>
    match processFeed cfg ora st f with
    | (st1, acts, some (ok, msg)) => (st1, acts, ok, msg)
    | (st1, acts, none) =>
      let (st2, acts2, ok, msg) := checkFeedsLoop cfg ora rest st1
      (st2, acts ++ acts2, ok, msg)

/-- `check_feeds` from the silent-window gate on (lines 239-246, 278-451). -/
def check_feeds (cfg : MonitorConfig) (ora : FeedOracle) (feeds : List Feed)
    (st : St) : St × List FAction × Bool × String :=
  if cfg.is_silent && !cfg.allow_like && !cfg.allow_comment then
    (st, [], true, "静默时间段内跳过刷空间")
  else if feeds.length == 0 then (st, [], true, "success")
  else checkFeedsLoop cfg ora feeds st

/-! ## Derived predicates and concrete fixtures used by the theorems -/

/-- A feed item is settled w.r.t. a dedup state: an item of another author is
recorded in `processed_list`; for an own item (when auto-reply is active)
every comment from someone else is recorded in `processed_comments`.  A pass
over settled items is a no-op. -/
def feedSettled (cfg : MonitorConfig) (st : St) (f : Feed) : Prop :=
  (f.target_qq ≠ cfg.qq_account → dictMem st.pl f.tid = true)
  ∧ (f.target_qq = cfg.qq_account → cfg.enable_auto_reply = true →
      ∀ c ∈ f.comments, c.qq_account ≠ cfg.qq_account →
        c.comment_tid ∈ dictGetD st.pc f.tid [])

/-- Fixture: a trivial `json5` decoder for witnesses. -/
def cDec : List Char → Option Int := fun _ => some 0

/-- Fixture: payload with a nonzero remote status code. -/
def c7Payload : ListPayload := ⟨"N", 4, "对不起,主人设置了权限,您无法查看", []⟩

/-- Fixture: payload whose only message is filtered out by the own-name test. -/
def c7PayloadFiltered : ListPayload :=
  ⟨"N", 0, "", [⟨"t1", "2024", "hello", [], [], none,
    some [⟨"N", "hi", "2", "t", ""⟩]⟩]⟩

/-- Fixture: the comment bearing the agent's display name. -/
def c8Comment : RComment := ⟨"N", "hi", "2", "t", ""⟩

/-- Fixture: a message whose comment list bears the agent's display name. -/
def c8Msg : FeedMsg := ⟨"t1", "2024", "hello", [], [], none, some [c8Comment]⟩

/-- Fixture: a code-0 payload containing `c8Msg`, logged in as nickname `N`. -/
def c8Payload : ListPayload := ⟨"N", 0, "", [c8Msg]⟩

/-- Fixture: an oracle whose only succeeding strategy is napcat. -/
def c3Ora : CookieOracle := ⟨some "napcat_bundle", none, none⟩

/-- Fixture: fresh cookie state (no recorded login, no file). -/
def c3St : CookieState := ⟨0, none⟩

/-- Fixture: an oracle whose only succeeding strategy is qrcode. -/
def c5Ora : CookieOracle := ⟨none, none, some "qr_bundle"⟩

/-- Fixture: monitor configuration outside the silent window, everything
permitted, caps 100. -/
def cfgFix : MonitorConfig := ⟨10, false, true, true, true, 100, 100⟩

/-- Fixture: oracle where every call succeeds and every gate passes. -/
def oraAllOk : FeedOracle :=
  ⟨fun _ => true, fun _ => true, fun _ => true, fun _ => true,
   fun _ => true, fun _ => true, fun _ => true⟩

/-- Fixture: a feed of another author with id `f1`. -/
def feedF1 : Feed := ⟨"f1", 20, "c1", [], "", []⟩

/-- Fixture: a feed of another author with id `f2`. -/
def feedF2 : Feed := ⟨"f2", 30, "c2", [], "", []⟩

/-- Fixture: an own feed with one pending comment from account 20. -/
def feedOwn : Feed := ⟨"f3", 10, "mine", [], "", [⟨20, "nick", "ct1", "nice", "t"⟩]⟩

/-- Fixture: oracle where both probability gates reject. -/
def oraGatesClosed : FeedOracle :=
  { oraAllOk with commentGate := fun _ => false, likeGate := fun _ => false }

/-- Fixture: dedup state after the first pass of the idempotence witness
run over `[feedF1, feedOwn, feedF2]`. -/
def c1StAfter : St := ⟨[("f1", []), ("f2", [])], [("f3", ["ct1"])]⟩

/-- Fixture: actions of the first pass of the idempotence witness run. -/
def c1Acts : List FAction :=
  [FAction.comment "f1", FAction.like "f1", FAction.saveList,
   FAction.reply "f3" "ct1", FAction.comment "f2", FAction.like "f2",
   FAction.saveList]

/-! ## Theorems -/

/-- C4 counterexample: `generate_gtk` on the empty string yields 5381
(`5381 & 0x7FFFFFFF`), not 0, refuting the claim's empty-string clause. -/
theorem c4_counterexample : generate_gtk_val "" ≠ 0 := by decide

/-- C4 (amended): the token derivation folds `h := h * 33 + ord(c)` over the
characters starting from 5381 and masks the result to 31 bits
(`% 2^31 = & 0x7FFFFFFF`); it is a pure function, returned as a decimal
string; on the empty string it returns 5381, not 0. -/
theorem c4_gtk_is_masked_fold (s : String) :
    generate_gtk_val s
      = (s.data.foldl (fun h c => 33 * h + c.toNat) 5381) % 2147483648
    ∧ generate_gtk s = toString (generate_gtk_val s)
    ∧ generate_gtk_val "" = 5381 := by
  refine ⟨?_, rfl, by decide⟩
  unfold generate_gtk_val
  have h : (fun (h : Nat) (c : Char) => h + (h * 32 + c.toNat))
      = (fun (h : Nat) (c : Char) => 33 * h + c.toNat) := by
    funext h c
    ring
  rw [h]

/-- C6: `reply` reports success exactly when the transport status is 200 and
the response code extracted from the embedded script callback is exactly 0;
a 200 response with a different (or missing) embedded code yields a
non-success result, and a non-200 status raises. -/
theorem c6_reply_success_iff (dec : List Char → Option Int) (res : ReplyResponse) :
    (reply dec res = Except.ok true
      ↔ res.status = 200 ∧ extract_code dec res.scripts = some 0)
    ∧ (res.status ≠ 200 →
        reply dec res = Except.error ("回复失败，错误码: " ++ toString res.status)) := by
  have hre : reply dec res =
      if res.status = 200 then
        (if extract_code dec res.scripts = some 0 then Except.ok true
         else Except.ok false)
      else Except.error ("回复失败，错误码: " ++ toString res.status) := by
    unfold reply
    by_cases h : res.status = 200 <;>
      by_cases hc : extract_code dec res.scripts = some 0 <;>
        simp [h, hc]
  rw [hre]
  by_cases h : res.status = 200 <;>
    by_cases hc : extract_code dec res.scripts = some 0 <;>
      simp [h, hc]

/-- Witness for C6 at a concrete response: a 500 response raises. -/
theorem c6_reply_success_iff_witness :
    reply cDec ⟨500, []⟩ = Except.error ("回复失败，错误码: " ++ toString 500) :=
  (c6_reply_success_iff cDec ⟨500, []⟩).2 (by decide)

/-- C7: on transport 200, a nonzero remote code makes `get_list` return the
single-element error marker carrying the remote message (no exception), and
a zero code whose filtered item list is empty returns the single-element
"nothing new" marker rather than an empty list. -/
theorem c7_get_list_error_markers (uin : Nat) (target : String) (p : ListPayload) :
    (p.code ≠ 0 → get_list uin target 200 p = Except.ok [ListEntry.err p.message])
    ∧ (p.code = 0 → keptMsgs uin target p = [] →
        get_list uin target 200 p = Except.ok [ListEntry.err nothingNewMsg]
        ∧ get_list uin target 200 p ≠ Except.ok []) := by
  constructor
  · intro h
    unfold get_list
    simp [h]
  · intro h hk
    unfold get_list
    simp [h, hk]

/-- Witness for C7: remote code 4 yields the remote-message marker, and a
fully filtered payload yields the "nothing new" marker. -/
theorem c7_get_list_error_markers_witness :
    get_list 1 "123" 200 c7Payload
        = Except.ok [ListEntry.err c7Payload.message]
    ∧ get_list 1 "99" 200 c7PayloadFiltered
        = Except.ok [ListEntry.err nothingNewMsg] :=
  ⟨(c7_get_list_error_markers 1 "123" c7Payload).1 (by decide),
   ((c7_get_list_error_markers 1 "99" c7PayloadFiltered).2 (by decide) (by decide)).1⟩

/-- C8 counterexample: when the listing targets the agent's own account
(`target_qq = str(self.uin)`), an item bearing the agent's display name among
its comments is NOT excluded: here `c8Msg` carries a comment named `N` (the
logged-in nickname) yet is returned by `get_list`. -/
theorem c8_counterexample :
    c8Msg ∈ c8Payload.msglist
    ∧ (c8Msg.commentlist.getD []).any
        (fun c => c.name == c8Payload.logininfo_name) = true
    ∧ get_list 1 "1" 200 c8Payload = Except.ok [buildEntry c8Msg] := by
  refine ⟨by simp [c8Payload], by decide, by rfl⟩

/-- C8 (amended): a feed item whose comment list already bears the agent's
own display name is excluded from `get_list`'s returned items, provided the
listing targets an account other than the agent's own
(`target_qq ≠ str(self.uin)`); when the agent lists its own feed the item is
kept. -/
theorem c8_own_comment_excluded (uin : Nat) (target : String) (p : ListPayload)
    (m : FeedMsg) (cl : List RComment) (c : RComment)
    (hm : m ∈ p.msglist) (hcl : m.commentlist = some cl) (hc : c ∈ cl)
    (hname : c.name = p.logininfo_name) (htarget : target ≠ toString uin)
    (hcode : p.code = 0) :
    msgSkipped p.logininfo_name target uin m = true
    ∧ m ∉ keptMsgs uin target p
    ∧ (keptMsgs uin target p ≠ [] →
        get_list uin target 200 p
          = Except.ok ((keptMsgs uin target p).map buildEntry)) := by
  have hskip : msgSkipped p.logininfo_name target uin m = true := by
    unfold msgSkipped
    rw [hcl]
    rw [List.any_eq_true]
    exact ⟨c, hc, by simp [hname, htarget]⟩
  refine ⟨hskip, ?_, ?_⟩
  · intro hmem
    unfold keptMsgs at hmem
    rw [List.mem_filter] at hmem
    rw [hskip] at hmem
    simp at hmem
  · intro hne
    unfold get_list
    simp [hcode]
    intro habs
    exact absurd habs hne

/-- Witness for C8 (amended) at a concrete payload targeting account 99. -/
theorem c8_own_comment_excluded_witness :
    msgSkipped c8Payload.logininfo_name "99" 1 c8Msg = true
    ∧ c8Msg ∉ keptMsgs 1 "99" c8Payload
    ∧ (keptMsgs 1 "99" c8Payload ≠ [] →
        get_list 1 "99" 200 c8Payload
          = Except.ok ((keptMsgs 1 "99" c8Payload).map buildEntry)) :=
  c8_own_comment_excluded 1 "99" c8Payload c8Msg [c8Comment] c8Comment
    (by simp [c8Payload]) rfl (by simp) rfl (by decide) rfl

/-- C3 counterexample: from a fresh state, a successful napcat-only run of
`renew_cookies` (no interactive login anywhere) sets the very timestamp that
drives `should_skip_qr_login`: before the run QR login is not skipped at
time 50000, after it the QR strategy is in cooldown at time 50000. -/
theorem c3_counterexample :
    should_skip_qr_login c3St.lastQr 50000 = false
    ∧ renew_cookies c3Ora c3St 10000 [Method.napcat] true
        = ([Method.napcat], RenewResult.success "napcat_bundle",
           ⟨10000, some "napcat_bundle"⟩)
    ∧ should_skip_qr_login
        (renew_cookies c3Ora c3St 10000 [Method.napcat] true).2.2.lastQr
        50000 = true := by
  refine ⟨by decide, by rfl, by decide⟩

/-- C3 (amended): `renew_cookies` skips the QR strategy when the shared
last-login timestamp is nonzero and younger than 20 hours; this timestamp is
overwritten with the current time after ANY strategy's successful
acquisition (at the persist step), not only after an interactive login; and
the same timestamp drives the 1-hour general minimum-refresh skip, so the
two cooldowns are coupled, not independent. -/
theorem c3_qr_cooldown_shared (ora : CookieOracle) (st : CookieState)
    (now : Nat) (ms : List Method) (fb : Bool) :
    (∀ att b st', renew_cookies ora st now ms fb
        = (att, RenewResult.success b, st') →
        st'.lastQr = now ∧ st'.localFile = some b)
    ∧ (∀ lastQr t : Nat,
        should_skip_qr_login lastQr t = true ↔ lastQr ≠ 0 ∧ t - lastQr < 72000)
    ∧ (now - st.lastQr < 3600 → st.lastQr ≠ 0 →
        renew_cookies ora st now ms fb = ([], RenewResult.skipped, st)) := by
  refine ⟨?_, ?_, ?_⟩
  · intro att b st' h
    unfold renew_cookies at h
    split at h
    · simp at h
    · split at h
      · rw [Prod.mk.injEq, Prod.mk.injEq] at h
        obtain ⟨-, hb, hst⟩ := h
        cases hb
        exact ⟨by rw [← hst], by rw [← hst]⟩
      · split at h
        · split at h
          · rw [Prod.mk.injEq, Prod.mk.injEq] at h
            obtain ⟨-, hb, hst⟩ := h
            cases hb
            exact ⟨by rw [← hst], by rw [← hst]⟩
          · simp at h
        · simp at h
  · intro lastQr t
    unfold should_skip_qr_login
    by_cases h : lastQr = 0 <;> simp [h]
  · intro h1 h2
    unfold renew_cookies
    have : (decide (now - st.lastQr < 3600) && (st.lastQr != 0)) = true := by
      simp [h1, h2]
    simp only [this]
    rfl

/-- Witness for C3 (amended) at a concrete run: a clientkey success stamps
the shared timestamp. -/
theorem c3_qr_cooldown_shared_witness :
    (∀ att b st', renew_cookies ⟨none, some "ck", none⟩ ⟨0, none⟩ 777
          [Method.clientkey] true = (att, RenewResult.success b, st') →
        st'.lastQr = 777 ∧ st'.localFile = some b)
    ∧ (∀ lastQr t : Nat,
        should_skip_qr_login lastQr t = true ↔ lastQr ≠ 0 ∧ t - lastQr < 72000)
    ∧ (777 - (0 : Nat) < 3600 → (0 : Nat) ≠ 0 →
        renew_cookies ⟨none, some "ck", none⟩ ⟨0, none⟩ 777
          [Method.clientkey] true = ([], RenewResult.skipped, ⟨0, none⟩)) :=
  c3_qr_cooldown_shared ⟨none, some "ck", none⟩ ⟨0, none⟩ 777 [Method.clientkey] true

/-- C5: with the refresh window open and the QR cooldown inactive, for any
configured strategies `[A, B, C]`: if `A` and `B` fail and `C` succeeds the
run adopts `C`'s bundle after exactly the three attempts `[A, B, C]` (no 4th
acquisition); if all three fail and the on-disk bundle exists, the fallback
adopts the on-disk bundle; the run fails only when all three strategies and
the on-disk fallback have failed. -/
theorem c5_first_success_wins (A B C : Method) (b : String)
    (ora : CookieOracle) (st : CookieState) (now : Nat)
    (hwin : (decide (now - st.lastQr < 3600) && (st.lastQr != 0)) = false)
    (hskip : should_skip_qr_login st.lastQr now = false) :
    (attemptResult ora st A = none → attemptResult ora st B = none →
      attemptResult ora st C = some b →
      renew_cookies ora st now [A, B, C] true
        = ([A, B, C], RenewResult.success b, ⟨now, some b⟩))
    ∧ (attemptResult ora st A = none → attemptResult ora st B = none →
        attemptResult ora st C = none → st.localFile = some b →
        renew_cookies ora st now [A, B, C] true
          = ([A, B, C, Method.local], RenewResult.success b, ⟨now, some b⟩))
    ∧ (attemptResult ora st A = none → attemptResult ora st B = none →
        attemptResult ora st C = none → st.localFile = none →
        renew_cookies ora st now [A, B, C] true
          = ([A, B, C, Method.local], RenewResult.failure, st)) := by
  refine ⟨?_, ?_, ?_⟩ <;> intro hA hB hC <;>
    first
      | (intro hL
         unfold renew_cookies
         simp only [hwin, Bool.false_eq_true, if_false, List.isEmpty_cons,
           if_neg (by decide : ¬False)]
         simp [tryMethods, hskip, hA, hB, hC, hL])
      | (unfold renew_cookies
         simp only [hwin, Bool.false_eq_true, if_false, List.isEmpty_cons,
           if_neg (by decide : ¬False)]
         simp [tryMethods, hskip, hA, hB, hC])

/-- Witness for C5: napcat and clientkey fail, qrcode succeeds; the bundle of
the third strategy is adopted after three attempts. -/
theorem c5_first_success_wins_witness :
    renew_cookies c5Ora ⟨0, none⟩ 10
        [Method.napcat, Method.clientkey, Method.qrcode] true
      = ([Method.napcat, Method.clientkey, Method.qrcode],
         RenewResult.success "qr_bundle", ⟨10, some "qr_bundle"⟩) :=
  (c5_first_success_wins Method.napcat Method.clientkey Method.qrcode
    "qr_bundle" c5Ora ⟨0, none⟩ 10 (by decide) (by decide)).1 rfl rfl rfl

theorem evictOldest_eq_drop (cap : Nat) :
    ∀ d : Store, evictOldest cap d = d.drop (d.length - cap)
  | [] => by simp [evictOldest]
  | p :: rest => by
    rw [evictOldest]
    by_cases h : (p :: rest).length ≤ cap
    · rw [if_pos h, Nat.sub_eq_zero_of_le h, List.drop_zero]
    · rw [if_neg h, evictOldest_eq_drop cap rest]
      have hlen : (p :: rest).length - cap = (rest.length - cap) + 1 := by
        simp only [List.length_cons] at h ⊢
        omega
      rw [hlen, List.drop_succ_cons]

theorem evictOldest_of_le (cap : Nat) (d : Store) (h : d.length ≤ cap) :
    evictOldest cap d = d := by
  rw [evictOldest_eq_drop, Nat.sub_eq_zero_of_le h, List.drop_zero]

theorem dictMem_append_single :
    ∀ (d : Store) (k k' : String) (v : List String),
      dictMem (d ++ [(k, v)]) k' = (dictMem d k' || (k == k'))
  | [], k, k', v => by simp [dictMem]
  | p :: rest, k, k', v => by
    rw [List.cons_append, dictMem, dictMem,
      dictMem_append_single rest k k' v, Bool.or_assoc]

theorem dictSet_of_not_mem :
    ∀ (d : Store) (k : String) (v : List String),
      dictMem d k = false → dictSet d k v = d ++ [(k, v)]
  | [], _, _, _ => rfl
  | p :: rest, k, v, h => by
    rw [dictMem, Bool.or_eq_false_iff] at h
    rw [dictSet, if_neg (by simp [h.1]), dictSet_of_not_mem rest k v h.2,
      List.cons_append]

theorem dictSet_keys_of_mem :
    ∀ (d : Store) (k : String) (v : List String), dictMem d k = true →
      (dictSet d k v).map Prod.fst = d.map Prod.fst
  | [], k, v => by simp [dictMem]
  | p :: rest, k, v => by
    intro h
    rw [dictSet]
    by_cases hp : (p.1 == k) = true
    · rw [if_pos hp]
      simp
    · rw [if_neg hp]
      rw [dictMem, Bool.or_eq_true_iff] at h
      rcases h with h | h
      · exact absurd h hp
      · simp [dictSet_keys_of_mem rest k v h]

theorem dictMem_dictSet_self :
    ∀ (d : Store) (k : String) (v : List String),
      dictMem (dictSet d k v) k = true
  | [], k, v => by simp [dictSet, dictMem]
  | p :: rest, k, v => by
    rw [dictSet]
    by_cases hp : (p.1 == k) = true
    · rw [if_pos hp, dictMem, hp, Bool.true_or]
    · rw [if_neg hp, dictMem, dictMem_dictSet_self rest k v, Bool.or_true]

theorem dictMem_dictSet_mono (d : Store) (k k' : String) (v : List String)
    (h : dictMem d k' = true) : dictMem (dictSet d k v) k' = true := by
  induction d with
  | nil => simp [dictMem] at h
  | cons p rest ih =>
    rw [dictMem, Bool.or_eq_true_iff] at h
    rw [dictSet]
    by_cases hp : (p.1 == k) = true
    · rw [if_pos hp, dictMem]
      rcases h with h | h
      · rw [h, Bool.true_or]
      · rw [h, Bool.or_true]
    · rw [if_neg hp, dictMem]
      rcases h with h | h
      · rw [h, Bool.true_or]
      · rw [ih h, Bool.or_true]

theorem dictMem_dictSet_of_ne (d : Store) (k k' : String) (v : List String)
    (hne : k ≠ k') : dictMem (dictSet d k v) k' = dictMem d k' := by
  induction d with
  | nil =>
    simp only [dictSet, dictMem, Bool.or_false]
    exact beq_eq_false_iff_ne.mpr hne
  | cons p rest ih =>
    rw [dictSet]
    by_cases hp : (p.1 == k) = true
    · rw [if_pos hp, dictMem, dictMem]
    · rw [if_neg hp, dictMem, dictMem, ih]

theorem dictSet_length_le (d : Store) (k : String) (v : List String) :
    (dictSet d k v).length ≤ d.length + 1 := by
  induction d with
  | nil => simp [dictSet]
  | cons p rest ih =>
    rw [dictSet]
    by_cases hp : (p.1 == k) = true
    · rw [if_pos hp]
      simp
    · rw [if_neg hp]
      simp only [List.length_cons]
      omega

theorem dictSet_length_of_not_mem (d : Store) (k : String) (v : List String)
    (h : dictMem d k = false) : (dictSet d k v).length = d.length + 1 := by
  rw [dictSet_of_not_mem d k v h]
  simp

theorem dictMem_drop_false (n : Nat) :
    ∀ (d : Store) (k : String), dictMem d k = false →
      dictMem (d.drop n) k = false := by
  induction n with
  | zero => intro d k h; simpa using h
  | succ m ih =>
    intro d k h
    cases d with
    | nil => simp [dictMem]
    | cons p rest =>
      rw [dictMem, Bool.or_eq_false_iff] at h
      rw [List.drop_succ_cons]
      exact ih rest k h.2

/-! ### The FIFO eviction bound (C9 infrastructure) -/

theorem insertFeedRecord_fold (K : Nat) (hK : 0 < K) :
    ∀ (ks : List String) (d : Store), d.length ≤ K →
      (∀ k ∈ ks, dictMem d k = false) → ks.Nodup →
      ks.foldl (insertFeedRecord K) d
        = (d ++ ks.map (fun k => (k, ([] : List String)))).drop
            (d.length + ks.length - K) := by
  intro ks
  induction ks with
  | nil =>
    intro d hd _ _
    simp [Nat.sub_eq_zero_of_le hd]
  | cons k rest ih =>
    intro d hd hfresh hnodup
    have hkfresh : dictMem d k = false := hfresh k (by simp)
    have hknotin : k ∉ rest := (List.nodup_cons.mp hnodup).1
    have hstep : insertFeedRecord K d k
        = (d ++ [(k, [])]).drop (d.length + 1 - K) := by
      unfold insertFeedRecord
      rw [dictSet_of_not_mem d k [] hkfresh, evictOldest_eq_drop]
      simp
    have hfresh1 : ∀ k' ∈ rest, dictMem (d ++ [(k, [])]) k' = false := by
      intro k' hk'
      rw [dictMem_append_single]
      have h1 : dictMem d k' = false := hfresh k' (by simp [hk'])
      have h2 : (k == k') = false :=
        beq_eq_false_iff_ne.mpr (fun he => hknotin (he ▸ hk'))
      rw [h1, h2, Bool.or_false]
    rw [List.foldl_cons, hstep]
    by_cases hlt : d.length < K
    · have h0 : d.length + 1 - K = 0 := by omega
      rw [h0, List.drop_zero]
      rw [ih (d ++ [(k, [])]) (by simp; omega) hfresh1 (List.nodup_cons.mp hnodup).2]
      have hl : (d ++ [(k, [])]).length + rest.length - K
          = d.length + (k :: rest).length - K := by
        simp
        omega
      rw [hl, List.append_assoc]
      rfl
    · have hKeq : d.length = K := by omega
      obtain ⟨q, d', rfl⟩ : ∃ q d', d = q :: d' := by
        cases d with
        | nil => simp at hKeq; omega
        | cons q d' => exact ⟨q, d', rfl⟩
      have h1 : (q :: d').length + 1 - K = 1 := by omega
      rw [h1]
      have hdrop : ((q :: d') ++ [(k, [])]).drop 1 = d' ++ [(k, [])] := by
        simp
      rw [hdrop]
      have hfresh2 : ∀ k' ∈ rest, dictMem (d' ++ [(k, [])]) k' = false := by
        intro k' hk'
        have := hfresh1 k' hk'
        rw [List.cons_append, dictMem, Bool.or_eq_false_iff] at this
        exact this.2
      rw [ih (d' ++ [(k, [])]) (by simp at hKeq ⊢; omega) hfresh2
        (List.nodup_cons.mp hnodup).2]
      have hl2 : (d' ++ [(k, [])]).length + rest.length - K = rest.length := by
        simp at hKeq ⊢
        omega
      have hl3 : (q :: d').length + (k :: rest).length - K = rest.length + 1 := by
        simp at hKeq ⊢
        omega
      rw [hl2, hl3]
      rw [List.cons_append, List.drop_succ_cons, List.append_assoc]
      rfl

/-- C9: inserting `N` pairwise-distinct records through the
record-then-evict step of `check_feeds` into an empty store capped at
`K < N` leaves exactly `K` records, namely the `K` most recently inserted
(insertion order is eviction order, oldest first); moreover re-inserting an
existing key keeps the key order unchanged (no LRU refresh on match). -/
theorem c9_fifo_eviction (ks : List String) (K : Nat) (hK : 0 < K)
    (hnodup : ks.Nodup) (hlt : K < ks.length) :
    (ks.foldl (insertFeedRecord K) []).length = K
    ∧ ks.foldl (insertFeedRecord K) []
        = (ks.drop (ks.length - K)).map (fun k => (k, ([] : List String)))
    ∧ ∀ (d : Store) (k : String), dictMem d k = true →
        (dictSet d k []).map Prod.fst = d.map Prod.fst := by
  have hfold := insertFeedRecord_fold K hK ks [] (by simp)
    (by intro k _; rfl) hnodup
  simp only [List.nil_append, List.length_nil, Nat.zero_add] at hfold
  refine ⟨?_, ?_, fun d k h => dictSet_keys_of_mem d k [] h⟩
  · rw [hfold]
    simp only [List.length_drop, List.length_map]
    omega
  · rw [hfold]
    rw [List.map_drop]

/-- Witness for C9: five distinct ids into a store capped at 3 retain the
last three. -/
theorem c9_fifo_eviction_witness :
    (["a", "b", "c", "d", "e"].foldl (insertFeedRecord 3) []).length = 3
    ∧ ["a", "b", "c", "d", "e"].foldl (insertFeedRecord 3) []
        = ((["a", "b", "c", "d", "e"].drop (["a", "b", "c", "d", "e"].length - 3)).map
            (fun k => (k, ([] : List String))))
    ∧ ∀ (d : Store) (k : String), dictMem d k = true →
        (dictSet d k []).map Prod.fst = d.map Prod.fst :=
  c9_fifo_eviction ["a", "b", "c", "d", "e"] 3 (by decide) (by decide) (by decide)

/-! ### `setdefaultAppend` lemmas and `processReplies` facts -/

theorem setdefaultAppend_mem_self :
    ∀ (d : Store) (k x : String), dictMem (setdefaultAppend d k x) k = true
  | [], k, x => by simp [setdefaultAppend, dictMem]
  | p :: rest, k, x => by
    rw [setdefaultAppend]
    by_cases hp : (p.1 == k) = true
    · rw [if_pos hp, dictMem, hp, Bool.true_or]
    · rw [if_neg hp, dictMem, setdefaultAppend_mem_self rest k x, Bool.or_true]

theorem setdefaultAppend_mem_mono (d : Store) (k x k' : String)
    (h : dictMem d k' = true) : dictMem (setdefaultAppend d k x) k' = true := by
  induction d with
  | nil => simp [dictMem] at h
  | cons p rest ih =>
    rw [dictMem, Bool.or_eq_true_iff] at h
    rw [setdefaultAppend]
    by_cases hp : (p.1 == k) = true
    · rw [if_pos hp, dictMem]
      rcases h with h | h
      · rw [h, Bool.true_or]
      · rw [h, Bool.or_true]
    · rw [if_neg hp, dictMem]
      rcases h with h | h
      · rw [h, Bool.true_or]
      · rw [ih h, Bool.or_true]

theorem setdefaultAppend_length_le (d : Store) (k x : String) :
    (setdefaultAppend d k x).length ≤ d.length + 1 := by
  induction d with
  | nil => simp [setdefaultAppend]
  | cons p rest ih =>
    rw [setdefaultAppend]
    by_cases hp : (p.1 == k) = true
    · rw [if_pos hp]
      simp
    · rw [if_neg hp]
      simp only [List.length_cons]
      omega

theorem setdefaultAppend_length_of_mem (d : Store) (k x : String)
    (h : dictMem d k = true) : (setdefaultAppend d k x).length = d.length := by
  induction d with
  | nil => simp [dictMem] at h
  | cons p rest ih =>
    rw [dictMem, Bool.or_eq_true_iff] at h
    rw [setdefaultAppend]
    by_cases hp : (p.1 == k) = true
    · rw [if_pos hp]
      simp
    · rw [if_neg hp]
      rcases h with h | h
      · exact absurd h hp
      · simp only [List.length_cons, ih h]

theorem setdefaultAppend_length_of_not_mem (d : Store) (k x : String)
    (h : dictMem d k = false) : (setdefaultAppend d k x).length = d.length + 1 := by
  induction d with
  | nil => simp [setdefaultAppend]
  | cons p rest ih =>
    rw [dictMem, Bool.or_eq_false_iff] at h
    rw [setdefaultAppend, if_neg (by simp [h.1])]
    simp only [List.length_cons, ih h.2]

theorem dictGetD_setdefaultAppend_mono (d : Store) (k x k0 y : String)
    (h : y ∈ dictGetD d k0 []) :
    y ∈ dictGetD (setdefaultAppend d k x) k0 [] := by
  induction d with
  | nil => simp [dictGetD] at h
  | cons p rest ih =>
    rw [dictGetD] at h
    rw [setdefaultAppend]
    by_cases hp : (p.1 == k) = true
    · rw [if_pos hp, dictGetD]
      by_cases hp0 : (p.1 == k0) = true
      · rw [if_pos hp0]
        rw [if_pos hp0] at h
        exact List.mem_append_left _ h
      · rw [if_neg hp0]
        rw [if_neg hp0] at h
        exact h
    · rw [if_neg hp, dictGetD]
      by_cases hp0 : (p.1 == k0) = true
      · rw [if_pos hp0]
        rw [if_pos hp0] at h
        exact h
      · rw [if_neg hp0]
        rw [if_neg hp0] at h
        exact ih h

theorem dictGetD_setdefaultAppend_self :
    ∀ (d : Store) (k x : String), x ∈ dictGetD (setdefaultAppend d k x) k []
  | [], k, x => by simp [setdefaultAppend, dictGetD]
  | p :: rest, k, x => by
    rw [setdefaultAppend]
    by_cases hp : (p.1 == k) = true
    · rw [if_pos hp, dictGetD, if_pos hp]
      exact List.mem_append_right _ (by simp)
    · rw [if_neg hp, dictGetD, if_neg hp]
      exact dictGetD_setdefaultAppend_self rest k x

theorem processReplies_facts (cfg : MonitorConfig) (ora : FeedOracle)
    (fid : String) :
    ∀ (cs : List FComment) (pc : Store),
      (dictMem pc fid = true → pc.length ≤ cfg.comments_cap) →
      (dictMem pc fid = false → pc.length + 1 ≤ cfg.comments_cap) →
      ((dictMem pc fid = true →
          (processReplies cfg ora fid cs pc).1.length ≤ pc.length)
        ∧ (processReplies cfg ora fid cs pc).1.length ≤ pc.length + 1)
      ∧ (∀ k y, y ∈ dictGetD pc k [] →
          y ∈ dictGetD (processReplies cfg ora fid cs pc).1 k [])
      ∧ ((processReplies cfg ora fid cs pc).2.2 = none →
          ∀ c ∈ cs, c.comment_tid
            ∈ dictGetD (processReplies cfg ora fid cs pc).1 fid []) := by
  intro cs
  induction cs with
  | nil =>
    intro pc _ _
    refine ⟨⟨fun _ => le_refl _, Nat.le_succ _⟩, fun k y h => h, fun _ c hc => ?_⟩
    simp at hc
  | cons c rest ih =>
    intro pc hmem hnotmem
    by_cases hllm : ora.llmReplyOk c = true
    · by_cases hsend : ora.replySendOk c.comment_tid = true
      · -- successful reply: record and continue
        have hlen1 : (setdefaultAppend pc fid c.comment_tid).length
            ≤ cfg.comments_cap := by
          by_cases hm : dictMem pc fid = true
          · rw [setdefaultAppend_length_of_mem pc fid c.comment_tid hm]
            exact hmem hm
          · rw [setdefaultAppend_length_of_not_mem pc fid c.comment_tid
              (by simpa using hm)]
            exact hnotmem (by simpa using hm)
        have hpc1 : evictOldest cfg.comments_cap
            (setdefaultAppend pc fid c.comment_tid)
            = setdefaultAppend pc fid c.comment_tid :=
          evictOldest_of_le _ _ hlen1
        have hstep : processReplies cfg ora fid (c :: rest) pc
            = ((processReplies cfg ora fid rest
                  (setdefaultAppend pc fid c.comment_tid)).1,
               FAction.reply fid c.comment_tid ::
                 (processReplies cfg ora fid rest
                   (setdefaultAppend pc fid c.comment_tid)).2.1,
               (processReplies cfg ora fid rest
                 (setdefaultAppend pc fid c.comment_tid)).2.2) := by
          rw [processReplies, if_neg (by simp [hllm]), if_neg (by simp [hsend]),
            hpc1]
        have hmem1 : dictMem (setdefaultAppend pc fid c.comment_tid) fid = true :=
          setdefaultAppend_mem_self pc fid c.comment_tid
        have ihres := ih (setdefaultAppend pc fid c.comment_tid)
          (fun _ => hlen1) (fun hf => by rw [hmem1] at hf; cases hf)
        rw [hstep]
        refine ⟨⟨?_, ?_⟩, ?_, ?_⟩
        · intro hm
          have := ihres.1.1 hmem1
          rw [setdefaultAppend_length_of_mem pc fid c.comment_tid hm] at this
          exact this
        · exact le_trans (ihres.1.1 hmem1)
            (setdefaultAppend_length_le pc fid c.comment_tid)
        · intro k y hy
          exact ihres.2.1 k y
            (dictGetD_setdefaultAppend_mono pc fid c.comment_tid k y hy)
        · intro hex c' hc'
          rcases List.mem_cons.mp hc' with rfl | hc'
          · exact ihres.2.1 fid c'.comment_tid
              (dictGetD_setdefaultAppend_self pc fid c'.comment_tid)
          · exact ihres.2.2 hex c' hc'
      · -- send failure: early exit, state unchanged
        have hstep : processReplies cfg ora fid (c :: rest) pc
            = (pc, [], some (false, "回复评论失败")) := by
          rw [processReplies, if_neg (by simp [hllm]), if_pos (by simp [hsend])]
        rw [hstep]
        exact ⟨⟨fun _ => le_refl _, Nat.le_succ _⟩, fun k y h => h,
          fun hex => by simp at hex⟩
    · -- generation failure: early exit, state unchanged
      have hstep : processReplies cfg ora fid (c :: rest) pc
          = (pc, [], some (false, "生成回复内容失败")) := by
        rw [processReplies, if_pos (by simp [hllm])]
      rw [hstep]
      exact ⟨⟨fun _ => le_refl _, Nat.le_succ _⟩, fun k y h => h,
        fun hex => by simp at hex⟩

theorem processReplies_exit_not_true (cfg : MonitorConfig) (ora : FeedOracle)
    (fid : String) :
    ∀ (cs : List FComment) (pc : Store) (msg : String),
      (processReplies cfg ora fid cs pc).2.2 ≠ some (true, msg) := by
  intro cs
  induction cs with
  | nil => intro pc msg h; simp [processReplies] at h
  | cons c rest ih =>
    intro pc msg h
    rw [processReplies] at h
    by_cases hllm : ora.llmReplyOk c = true
    · by_cases hsend : ora.replySendOk c.comment_tid = true
      · rw [if_neg (by simp [hllm]), if_neg (by simp [hsend])] at h
        exact ih _ msg h
      · rw [if_neg (by simp [hllm]), if_pos (by simp [hsend])] at h
        simp at h
    · rw [if_pos (by simp [hllm])] at h
      simp at h

theorem processReplies_acts_are_replies (cfg : MonitorConfig) (ora : FeedOracle)
    (fid : String) :
    ∀ (cs : List FComment) (pc : Store) (a : FAction),
      a ∈ (processReplies cfg ora fid cs pc).2.1 →
      ∃ g c, a = FAction.reply g c := by
  intro cs
  induction cs with
  | nil => intro pc a h; simp [processReplies] at h
  | cons c rest ih =>
    intro pc a h
    rw [processReplies] at h
    by_cases hllm : ora.llmReplyOk c = true
    · by_cases hsend : ora.replySendOk c.comment_tid = true
      · rw [if_neg (by simp [hllm]), if_neg (by simp [hsend])] at h
        rcases List.mem_cons.mp h with rfl | h
        · exact ⟨fid, c.comment_tid, rfl⟩
        · exact ih _ a h
      · rw [if_neg (by simp [hllm]), if_pos (by simp [hsend])] at h
        simp at h
    · rw [if_pos (by simp [hllm])] at h
      simp at h

/-! ### `processFeed` branch equations -/

theorem processFeed_own_noauto (cfg : MonitorConfig) (ora : FeedOracle)
    (st : St) (f : Feed) (h1 : (f.target_qq == cfg.qq_account) = true)
    (h2 : cfg.enable_auto_reply = false) :
    processFeed cfg ora st f = (st, [], none) := by
  unfold processFeed
  rw [if_pos h1, if_pos (by simp [h2])]

theorem processFeed_own_empty (cfg : MonitorConfig) (ora : FeedOracle)
    (st : St) (f : Feed) (h1 : (f.target_qq == cfg.qq_account) = true)
    (h3 : (toReplyOf cfg st f).isEmpty = true) :
    processFeed cfg ora st f = (st, [], none) := by
  unfold processFeed
  rw [if_pos h1]
  by_cases h2 : cfg.enable_auto_reply = true
  · rw [if_neg (by simp [h2]), if_pos h3]
  · rw [if_pos (by simp [Bool.eq_false_iff.mpr h2])]

theorem processFeed_own_replies (cfg : MonitorConfig) (ora : FeedOracle)
    (st : St) (f : Feed) (h1 : (f.target_qq == cfg.qq_account) = true)
    (h2 : cfg.enable_auto_reply = true)
    (h3 : (toReplyOf cfg st f).isEmpty = false) :
    processFeed cfg ora st f
      = ({ st with
            pc := (processReplies cfg ora f.tid (toReplyOf cfg st f) st.pc).1 },
         (processReplies cfg ora f.tid (toReplyOf cfg st f) st.pc).2.1,
         (processReplies cfg ora f.tid (toReplyOf cfg st f) st.pc).2.2) := by
  unfold processFeed
  rw [if_pos h1, if_neg (by simp [h2]), if_neg (by simp [h3])]

theorem processFeed_other_skip (cfg : MonitorConfig) (ora : FeedOracle)
    (st : St) (f : Feed) (h1 : (f.target_qq == cfg.qq_account) = false)
    (h2 : dictMem st.pl f.tid = true) :
    processFeed cfg ora st f = (st, [], none) := by
  unfold processFeed
  rw [if_neg (by simp [h1]), if_pos h2]

theorem processFeed_other_llmfail (cfg : MonitorConfig) (ora : FeedOracle)
    (st : St) (f : Feed) (h1 : (f.target_qq == cfg.qq_account) = false)
    (h2 : dictMem st.pl f.tid = false) (h3 : ora.llmCommentOk f = false) :
    processFeed cfg ora st f = (st, [], some (false, "生成评论内容失败")) := by
  unfold processFeed
  rw [if_neg (by simp [h1]), if_neg (by simp [h2]), if_pos (by simp [h3])]

theorem processFeed_other_main (cfg : MonitorConfig) (ora : FeedOracle)
    (st : St) (f : Feed) (h1 : (f.target_qq == cfg.qq_account) = false)
    (h2 : dictMem st.pl f.tid = false) (h3 : ora.llmCommentOk f = true) :
    processFeed cfg ora st f
      = (match commentStep cfg ora f.tid with
         | none => (st, [], some (false, "评论说说失败"))
         | some ca =>
           match likeStep cfg ora f.tid with
           | none => (st, ca, some (false, "点赞说说失败"))
           | some la =>
             ({ st with pl := insertFeedRecord cfg.feeds_cap st.pl f.tid },
              ca ++ la ++ [FAction.saveList], none)) := by
  unfold processFeed
  rw [if_neg (by simp [h1]), if_neg (by simp [h2]), if_neg (by simp [h3])]

theorem commentStep_some (cfg : MonitorConfig) (ora : FeedOracle)
    (fid : String) (ca : List FAction)
    (h : commentStep cfg ora fid = some ca) :
    ca = [] ∨ ca = [FAction.comment fid] := by
  unfold commentStep at h
  by_cases hg : (cfg.allow_comment && ora.commentGate fid) = true
  · rw [if_pos hg] at h
    by_cases hs : ora.commentSendOk fid = true
    · rw [if_pos hs] at h
      right
      exact (Option.some.injEq _ _ ▸ h).symm
    · rw [if_neg hs] at h
      cases h
  · rw [if_neg hg] at h
    left
    exact (Option.some.injEq _ _ ▸ h).symm

theorem likeStep_some (cfg : MonitorConfig) (ora : FeedOracle)
    (fid : String) (la : List FAction)
    (h : likeStep cfg ora fid = some la) :
    la = [] ∨ la = [FAction.like fid] := by
  unfold likeStep at h
  by_cases hg : (cfg.allow_like && ora.likeGate fid) = true
  · rw [if_pos hg] at h
    by_cases hs : ora.likeSendOk fid = true
    · rw [if_pos hs] at h
      right
      exact (Option.some.injEq _ _ ▸ h).symm
    · rw [if_neg hs] at h
      cases h
  · rw [if_neg hg] at h
    left
    exact (Option.some.injEq _ _ ▸ h).symm

theorem commentStep_of_gate (cfg : MonitorConfig) (ora : FeedOracle)
    (fid : String) (hg : (cfg.allow_comment && ora.commentGate fid) = true) :
    commentStep cfg ora fid
      = (if ora.commentSendOk fid then some [FAction.comment fid] else none) := by
  unfold commentStep
  rw [if_pos hg]

/-- A non-self comment of an own feed is either still pending or already
recorded in `processed_comments`. -/
theorem comment_pending_or_recorded (cfg : MonitorConfig) (st : St) (f : Feed)
    (c : FComment) (hc : c ∈ f.comments)
    (hqq : c.qq_account ≠ cfg.qq_account) :
    c ∈ toReplyOf cfg st f ∨ c.comment_tid ∈ dictGetD st.pc f.tid [] := by
  by_cases hmemc : c.comment_tid ∈ dictGetD st.pc f.tid []
  · exact Or.inr hmemc
  · refine Or.inl (List.mem_filter.mpr ⟨hc, ?_⟩)
    simp [bne_iff_ne, hqq, hmemc]

/-- One-step facts about `processFeed` under one free slot in each cache:
membership in `processed_list` and recorded comment ids are preserved, each
store grows by at most one entry, and a completed iteration settles its
feed. -/
theorem processFeed_facts (cfg : MonitorConfig) (ora : FeedOracle) (st : St)
    (f : Feed) (hpl : st.pl.length + 1 ≤ cfg.feeds_cap)
    (hpc : st.pc.length + 1 ≤ cfg.comments_cap) :
    (∀ k, dictMem st.pl k = true →
        dictMem (processFeed cfg ora st f).1.pl k = true)
    ∧ (∀ k y, y ∈ dictGetD st.pc k [] →
        y ∈ dictGetD (processFeed cfg ora st f).1.pc k [])
    ∧ (processFeed cfg ora st f).1.pl.length ≤ st.pl.length + 1
    ∧ (processFeed cfg ora st f).1.pc.length ≤ st.pc.length + 1
    ∧ ((processFeed cfg ora st f).2.2 = none →
        feedSettled cfg (processFeed cfg ora st f).1 f) := by
  by_cases h1 : (f.target_qq == cfg.qq_account) = true
  · have heq : f.target_qq = cfg.qq_account := beq_iff_eq.mp h1
    by_cases h2 : cfg.enable_auto_reply = true
    · by_cases h3 : (toReplyOf cfg st f).isEmpty = true
      · rw [processFeed_own_empty cfg ora st f h1 h3]
        refine ⟨fun k h => h, fun k y h => h, Nat.le_succ _, Nat.le_succ _,
          fun _ => ⟨fun hne => absurd heq hne, fun _ _ c hc hqq => ?_⟩⟩
        rcases comment_pending_or_recorded cfg st f c hc hqq with hin | hin
        · rw [List.isEmpty_iff.mp h3] at hin
          simp at hin
        · exact hin
      · rw [processFeed_own_replies cfg ora st f h1 h2
          (Bool.eq_false_iff.mpr h3)]
        have hfacts := processReplies_facts cfg ora f.tid (toReplyOf cfg st f)
          st.pc (fun _ => by omega) (fun _ => hpc)
        refine ⟨fun k h => h, fun k y h => hfacts.2.1 k y h, Nat.le_succ _,
          hfacts.1.2, fun hex => ⟨fun hne => absurd heq hne,
            fun _ _ c hc hqq => ?_⟩⟩
        rcases comment_pending_or_recorded cfg st f c hc hqq with hin | hin
        · exact hfacts.2.2 hex c hin
        · exact hfacts.2.1 f.tid c.comment_tid hin
    · rw [processFeed_own_noauto cfg ora st f h1 (Bool.eq_false_iff.mpr h2)]
      exact ⟨fun k h => h, fun k y h => h, Nat.le_succ _, Nat.le_succ _,
        fun _ => ⟨fun hne => absurd heq hne,
          fun _ hauto _ _ _ => absurd hauto h2⟩⟩
  · have hne : f.target_qq ≠ cfg.qq_account := by
      intro he
      rw [he] at h1
      simp at h1
    have h1f : (f.target_qq == cfg.qq_account) = false := by
      simpa using h1
    by_cases h2 : dictMem st.pl f.tid = true
    · rw [processFeed_other_skip cfg ora st f h1f h2]
      exact ⟨fun k h => h, fun k y h => h, Nat.le_succ _, Nat.le_succ _,
        fun _ => ⟨fun _ => h2, fun he => absurd he hne⟩⟩
    · have h2f : dictMem st.pl f.tid = false := by simpa using h2
      by_cases h3 : ora.llmCommentOk f = true
      · rw [processFeed_other_main cfg ora st f h1f h2f h3]
        cases hca : commentStep cfg ora f.tid with
        | none =>
          exact ⟨fun k h => h, fun k y h => h, Nat.le_succ _, Nat.le_succ _,
            fun hex => by simp at hex⟩
        | some ca =>
          cases hla : likeStep cfg ora f.tid with
          | none =>
            exact ⟨fun k h => h, fun k y h => h, Nat.le_succ _, Nat.le_succ _,
              fun hex => by simp at hex⟩
          | some la =>
            have hins : insertFeedRecord cfg.feeds_cap st.pl f.tid
                = dictSet st.pl f.tid [] := by
              unfold insertFeedRecord
              exact evictOldest_of_le _ _
                (le_trans (dictSet_length_le st.pl f.tid []) hpl)
            refine ⟨fun k h => ?_, fun k y h => h, ?_, Nat.le_succ _,
              fun _ => ⟨fun _ => ?_, fun he => absurd he hne⟩⟩
            · show dictMem (insertFeedRecord cfg.feeds_cap st.pl f.tid) k = true
              rw [hins]
              exact dictMem_dictSet_mono st.pl f.tid k [] h
            · show (insertFeedRecord cfg.feeds_cap st.pl f.tid).length
                ≤ st.pl.length + 1
              rw [hins]
              exact dictSet_length_le st.pl f.tid []
            · show dictMem (insertFeedRecord cfg.feeds_cap st.pl f.tid) f.tid = true
              rw [hins]
              exact dictMem_dictSet_self st.pl f.tid []
      · rw [processFeed_other_llmfail cfg ora st f h1f h2f
          (Bool.eq_false_iff.mpr h3)]
        exact ⟨fun k h => h, fun k y h => h, Nat.le_succ _, Nat.le_succ _,
          fun hex => by simp at hex⟩

/-! ### Loop lemmas -/

theorem checkFeedsLoop_cons_exit (cfg : MonitorConfig) (ora : FeedOracle)
    (f : Feed) (rest : List Feed) (st st1 : St) (acts : List FAction)
    (ok : Bool) (msg : String)
    (h : processFeed cfg ora st f = (st1, acts, some (ok, msg))) :
    checkFeedsLoop cfg ora (f :: rest) st = (st1, acts, ok, msg) := by
  rw [checkFeedsLoop, h]

theorem checkFeedsLoop_cons_cont (cfg : MonitorConfig) (ora : FeedOracle)
    (f : Feed) (rest : List Feed) (st st1 : St) (acts : List FAction)
    (h : processFeed cfg ora st f = (st1, acts, none)) :
    checkFeedsLoop cfg ora (f :: rest) st
      = ((checkFeedsLoop cfg ora rest st1).1,
         acts ++ (checkFeedsLoop cfg ora rest st1).2.1,
         (checkFeedsLoop cfg ora rest st1).2.2) := by
  rw [checkFeedsLoop, h]

theorem processFeed_exit_not_true (cfg : MonitorConfig) (ora : FeedOracle)
    (st : St) (f : Feed) (msg : String) :
    (processFeed cfg ora st f).2.2 ≠ some (true, msg) := by
  by_cases h1 : (f.target_qq == cfg.qq_account) = true
  · by_cases h2 : cfg.enable_auto_reply = true
    · by_cases h3 : (toReplyOf cfg st f).isEmpty = true
      · rw [processFeed_own_empty cfg ora st f h1 h3]
        simp
      · rw [processFeed_own_replies cfg ora st f h1 h2
          (Bool.eq_false_iff.mpr h3)]
        exact processReplies_exit_not_true cfg ora f.tid
          (toReplyOf cfg st f) st.pc msg
    · rw [processFeed_own_noauto cfg ora st f h1 (Bool.eq_false_iff.mpr h2)]
      simp
  · have h1f : (f.target_qq == cfg.qq_account) = false := by simpa using h1
    by_cases h2 : dictMem st.pl f.tid = true
    · rw [processFeed_other_skip cfg ora st f h1f h2]
      simp
    · have h2f : dictMem st.pl f.tid = false := by simpa using h2
      by_cases h3 : ora.llmCommentOk f = true
      · rw [processFeed_other_main cfg ora st f h1f h2f h3]
        cases hca : commentStep cfg ora f.tid with
        | none => simp
        | some ca =>
          cases hla : likeStep cfg ora f.tid with
          | none => simp
          | some la => simp
      · rw [processFeed_other_llmfail cfg ora st f h1f h2f
          (Bool.eq_false_iff.mpr h3)]
        simp

theorem feedSettled_mono (cfg : MonitorConfig) (st st' : St) (f : Feed)
    (hpl : ∀ k, dictMem st.pl k = true → dictMem st'.pl k = true)
    (hpc : ∀ k y, y ∈ dictGetD st.pc k [] → y ∈ dictGetD st'.pc k [])
    (h : feedSettled cfg st f) : feedSettled cfg st' f :=
  ⟨fun hne => hpl _ (h.1 hne),
   fun he ha c hc hqq => hpc _ _ (h.2 he ha c hc hqq)⟩

/-- Across a whole pass with enough cache room for every item: recorded feed
ids and comment ids are never lost, the caches grow by at most one entry per
item, and a pass that ends in success leaves every visited feed settled. -/
theorem checkFeedsLoop_mono (cfg : MonitorConfig) (ora : FeedOracle) :
    ∀ (feeds : List Feed) (st : St),
      st.pl.length + feeds.length ≤ cfg.feeds_cap →
      st.pc.length + feeds.length ≤ cfg.comments_cap →
      (∀ k, dictMem st.pl k = true →
          dictMem (checkFeedsLoop cfg ora feeds st).1.pl k = true)
      ∧ (∀ k y, y ∈ dictGetD st.pc k [] →
          y ∈ dictGetD (checkFeedsLoop cfg ora feeds st).1.pc k [])
      ∧ (checkFeedsLoop cfg ora feeds st).1.pl.length
          ≤ st.pl.length + feeds.length
      ∧ (checkFeedsLoop cfg ora feeds st).1.pc.length
          ≤ st.pc.length + feeds.length
      ∧ ((checkFeedsLoop cfg ora feeds st).2.2.1 = true →
          ∀ f ∈ feeds, feedSettled cfg (checkFeedsLoop cfg ora feeds st).1 f) := by
  intro feeds
  induction feeds with
  | nil =>
    intro st _ _
    exact ⟨fun k h => h, fun k y h => h, Nat.le_add_right _ _,
      Nat.le_add_right _ _, fun _ f hf => by simp at hf⟩
  | cons f rest ih =>
    intro st hcap1 hcap2
    have hpl1 : st.pl.length + 1 ≤ cfg.feeds_cap := by
      simp only [List.length_cons] at hcap1
      omega
    have hpc1 : st.pc.length + 1 ≤ cfg.comments_cap := by
      simp only [List.length_cons] at hcap2
      omega
    have hpf := processFeed_facts cfg ora st f hpl1 hpc1
    rcases hpd : processFeed cfg ora st f with ⟨st1, acts, ex⟩
    rw [hpd] at hpf
    dsimp only at hpf
    cases ex with
    | some pr =>
      rcases pr with ⟨ok, msg⟩
      rw [checkFeedsLoop_cons_exit cfg ora f rest st st1 acts ok msg hpd]
      have hokf : ok = false := by
        cases ok
        · rfl
        · have := processFeed_exit_not_true cfg ora st f msg
          rw [hpd] at this
          exact absurd rfl this
      refine ⟨hpf.1, hpf.2.1, ?_, ?_, ?_⟩
      · have := hpf.2.2.1
        simp only [List.length_cons]
        omega
      · have := hpf.2.2.2.1
        simp only [List.length_cons]
        omega
      · intro hok
        rw [hokf] at hok
        cases hok
    | none =>
      rw [checkFeedsLoop_cons_cont cfg ora f rest st st1 acts hpd]
      have hplx := hpf.2.2.1
      have hpcx := hpf.2.2.2.1
      have ihres := ih st1
        (by simp only [List.length_cons] at hcap1; omega)
        (by simp only [List.length_cons] at hcap2; omega)
      refine ⟨fun k h => ihres.1 k (hpf.1 k h),
        fun k y h => ihres.2.1 k y (hpf.2.1 k y h), ?_, ?_, ?_⟩
      · have := ihres.2.2.1
        simp only [List.length_cons]
        omega
      · have := ihres.2.2.2.1
        simp only [List.length_cons]
        omega
      · intro hok f' hf'
        rcases List.mem_cons.mp hf' with rfl | hf'
        · exact feedSettled_mono cfg st1 _ f' ihres.1 ihres.2.1
            (hpf.2.2.2.2 rfl)
        · exact ihres.2.2.2.2 hok f' hf'

/-- A pass over feeds that are all settled performs no action and leaves the
state untouched. -/
theorem checkFeedsLoop_noop (cfg : MonitorConfig) (ora : FeedOracle) :
    ∀ (feeds : List Feed) (st : St),
      (∀ f ∈ feeds, feedSettled cfg st f) →
      checkFeedsLoop cfg ora feeds st = (st, [], true, "success") := by
  intro feeds
  induction feeds with
  | nil => intro st _; rfl
  | cons f rest ih =>
    intro st hset
    have hsf := hset f (by simp)
    have hstep : processFeed cfg ora st f = (st, [], none) := by
      by_cases h1 : (f.target_qq == cfg.qq_account) = true
      · by_cases h2 : cfg.enable_auto_reply = true
        · have hempty : (toReplyOf cfg st f).isEmpty = true := by
            rw [List.isEmpty_iff]
            unfold toReplyOf
            rw [List.filter_eq_nil]
            intro c hc
            by_cases hqq : c.qq_account = cfg.qq_account
            · simp [hqq]
            · have hmemc := hsf.2 (beq_iff_eq.mp h1) h2 c hc hqq
              simp [hmemc]
          exact processFeed_own_empty cfg ora st f h1 hempty
        · exact processFeed_own_noauto cfg ora st f h1 (Bool.eq_false_iff.mpr h2)
      · have h1f : (f.target_qq == cfg.qq_account) = false := by simpa using h1
        have hne : f.target_qq ≠ cfg.qq_account := by
          intro he
          rw [he] at h1
          simp at h1
        exact processFeed_other_skip cfg ora st f h1f (hsf.1 hne)
    rw [checkFeedsLoop_cons_cont cfg ora f rest st st [] hstep]
    rw [ih st (fun g hg => hset g (by simp [hg]))]
    rfl

theorem processReplies_no_comment_like (cfg : MonitorConfig) (ora : FeedOracle)
    (fid : String) (cs : List FComment) (pc : Store) (t : String) :
    FAction.comment t ∉ (processReplies cfg ora fid cs pc).2.1
    ∧ FAction.like t ∉ (processReplies cfg ora fid cs pc).2.1 := by
  constructor <;> intro hmem <;>
    rcases processReplies_acts_are_replies cfg ora fid cs pc _ hmem
      with ⟨g, c, hgc⟩ <;> cases hgc

/-- One-step action counting: a completed iteration emits at most one
comment and one like for any feed id, emits none for an id already recorded,
and any id it emits for is recorded afterwards. -/
theorem processFeed_step_count (cfg : MonitorConfig) (ora : FeedOracle)
    (st : St) (f : Feed) (t : String)
    (hpl : st.pl.length + 1 ≤ cfg.feeds_cap)
    (hex : (processFeed cfg ora st f).2.2 = none) :
    (dictMem st.pl t = true →
      (processFeed cfg ora st f).2.1.count (FAction.comment t) = 0
      ∧ (processFeed cfg ora st f).2.1.count (FAction.like t) = 0)
    ∧ (processFeed cfg ora st f).2.1.count (FAction.comment t) ≤ 1
    ∧ (processFeed cfg ora st f).2.1.count (FAction.like t) ≤ 1
    ∧ ((1 ≤ (processFeed cfg ora st f).2.1.count (FAction.comment t)
        ∨ 1 ≤ (processFeed cfg ora st f).2.1.count (FAction.like t)) →
        dictMem (processFeed cfg ora st f).1.pl t = true) := by
  by_cases h1 : (f.target_qq == cfg.qq_account) = true
  · by_cases h2 : cfg.enable_auto_reply = true
    · by_cases h3 : (toReplyOf cfg st f).isEmpty = true
      · rw [processFeed_own_empty cfg ora st f h1 h3]
        simp
      · rw [processFeed_own_replies cfg ora st f h1 h2
          (Bool.eq_false_iff.mpr h3)]
        have hno := processReplies_no_comment_like cfg ora f.tid
          (toReplyOf cfg st f) st.pc t
        have hc0 : (processReplies cfg ora f.tid (toReplyOf cfg st f)
            st.pc).2.1.count (FAction.comment t) = 0 :=
          List.count_eq_zero.mpr hno.1
        have hl0 : (processReplies cfg ora f.tid (toReplyOf cfg st f)
            st.pc).2.1.count (FAction.like t) = 0 :=
          List.count_eq_zero.mpr hno.2
        dsimp only
        rw [hc0, hl0]
        simp
    · rw [processFeed_own_noauto cfg ora st f h1 (Bool.eq_false_iff.mpr h2)]
      simp
  · have h1f : (f.target_qq == cfg.qq_account) = false := by simpa using h1
    by_cases h2 : dictMem st.pl f.tid = true
    · rw [processFeed_other_skip cfg ora st f h1f h2]
      simp
    · have h2f : dictMem st.pl f.tid = false := by simpa using h2
      by_cases h3 : ora.llmCommentOk f = true
      · rw [processFeed_other_main cfg ora st f h1f h2f h3] at hex ⊢
        cases hca : commentStep cfg ora f.tid with
        | none =>
          rw [hca] at hex
          simp at hex
        | some ca =>
          cases hla : likeStep cfg ora f.tid with
          | none =>
            rw [hca, hla] at hex
            simp at hex
          | some la =>
            dsimp only
            have hins : insertFeedRecord cfg.feeds_cap st.pl f.tid
                = dictSet st.pl f.tid [] := by
              unfold insertFeedRecord
              exact evictOldest_of_le _ _
                (le_trans (dictSet_length_le st.pl f.tid []) hpl)
            have hsc : ([FAction.saveList] : List FAction).count
                (FAction.comment t) = 0 := by simp
            have hsl : ([FAction.saveList] : List FAction).count
                (FAction.like t) = 0 := by simp
            by_cases hts : t = f.tid
            · subst hts
              have hcc : ca.count (FAction.comment f.tid) ≤ 1 := by
                rcases commentStep_some cfg ora f.tid ca hca with rfl | rfl <;>
                  simp
              have hcl : ca.count (FAction.like f.tid) = 0 := by
                rcases commentStep_some cfg ora f.tid ca hca with rfl | rfl <;>
                  simp
              have hlc : la.count (FAction.comment f.tid) = 0 := by
                rcases likeStep_some cfg ora f.tid la hla with rfl | rfl <;>
                  simp
              have hll : la.count (FAction.like f.tid) ≤ 1 := by
                rcases likeStep_some cfg ora f.tid la hla with rfl | rfl <;>
                  simp
              refine ⟨fun hm => absurd hm (by simp [h2f]), ?_, ?_, fun _ => ?_⟩
              · simp only [List.count_append]
                omega
              · simp only [List.count_append]
                omega
              · rw [hins]
                exact dictMem_dictSet_self st.pl f.tid []
            · have h1c : FAction.comment t ∉ ca := by
                rcases commentStep_some cfg ora f.tid ca hca with rfl | rfl <;>
                  simp [hts]
              have h2c : FAction.comment t ∉ la := by
                rcases likeStep_some cfg ora f.tid la hla with rfl | rfl <;>
                  simp
              have h1l : FAction.like t ∉ ca := by
                rcases commentStep_some cfg ora f.tid ca hca with rfl | rfl <;>
                  simp
              have h2l : FAction.like t ∉ la := by
                rcases likeStep_some cfg ora f.tid la hla with rfl | rfl <;>
                  simp [hts]
              have hc0 : (ca ++ la ++ [FAction.saveList]).count
                  (FAction.comment t) = 0 := by
                apply List.count_eq_zero.mpr
                simp [h1c, h2c, hts]
              have hl0 : (ca ++ la ++ [FAction.saveList]).count
                  (FAction.like t) = 0 := by
                apply List.count_eq_zero.mpr
                simp [h1l, h2l]
              refine ⟨fun _ => ⟨hc0, hl0⟩, by rw [hc0]; omega,
                by rw [hl0]; omega, fun habs => ?_⟩
              rcases habs with habs | habs
              · rw [hc0] at habs
                omega
              · rw [hl0] at habs
                omega
      · rw [processFeed_other_llmfail cfg ora st f h1f h2f
          (Bool.eq_false_iff.mpr h3)] at hex
        simp at hex

/-- Action counting across a successful pass: at most one comment and one
like per feed id, and none at all for an id already recorded at entry. -/
theorem checkFeedsLoop_count (cfg : MonitorConfig) (ora : FeedOracle) :
    ∀ (feeds : List Feed) (st : St),
      st.pl.length + feeds.length ≤ cfg.feeds_cap →
      st.pc.length + feeds.length ≤ cfg.comments_cap →
      (checkFeedsLoop cfg ora feeds st).2.2.1 = true →
      ∀ t,
        (dictMem st.pl t = true →
          (checkFeedsLoop cfg ora feeds st).2.1.count (FAction.comment t) = 0
          ∧ (checkFeedsLoop cfg ora feeds st).2.1.count (FAction.like t) = 0)
        ∧ (checkFeedsLoop cfg ora feeds st).2.1.count (FAction.comment t) ≤ 1
        ∧ (checkFeedsLoop cfg ora feeds st).2.1.count (FAction.like t) ≤ 1 := by
  intro feeds
  induction feeds with
  | nil =>
    intro st _ _ _ t
    exact ⟨fun _ => ⟨rfl, rfl⟩, by simp [checkFeedsLoop], by simp [checkFeedsLoop]⟩
  | cons f rest ih =>
    intro st hcap1 hcap2 hok t
    have hpl1 : st.pl.length + 1 ≤ cfg.feeds_cap := by
      simp only [List.length_cons] at hcap1
      omega
    have hpc1 : st.pc.length + 1 ≤ cfg.comments_cap := by
      simp only [List.length_cons] at hcap2
      omega
    rcases hpd : processFeed cfg ora st f with ⟨st1, acts, ex⟩
    cases ex with
    | some pr =>
      rcases pr with ⟨ok, msg⟩
      rw [checkFeedsLoop_cons_exit cfg ora f rest st st1 acts ok msg hpd] at hok
      exfalso
      have hnt := processFeed_exit_not_true cfg ora st f msg
      rw [hpd] at hnt
      dsimp only at hnt hok
      rw [hok] at hnt
      exact hnt rfl
    | none =>
      rw [checkFeedsLoop_cons_cont cfg ora f rest st st1 acts hpd] at hok ⊢
      dsimp only at hok ⊢
      have hstep := processFeed_step_count cfg ora st f t hpl1 (by rw [hpd])
      rw [hpd] at hstep
      dsimp only at hstep
      have hpf := processFeed_facts cfg ora st f hpl1 hpc1
      rw [hpd] at hpf
      dsimp only at hpf
      have ihres := ih st1
        (by have := hpf.2.2.1; simp only [List.length_cons] at hcap1; omega)
        (by have := hpf.2.2.2.1; simp only [List.length_cons] at hcap2; omega)
        hok t
      simp only [List.count_append]
      refine ⟨?_, ?_, ?_⟩
      · intro hm
        have hz := hstep.1 hm
        have hz2 := (ihres.1 (hpf.1 t hm))
        exact ⟨by omega, by omega⟩
      · by_cases hge : 1 ≤ acts.count (FAction.comment t)
        · have hrec := hstep.2.2.2 (Or.inl hge)
          have hz := (ihres.1 hrec).1
          have hle := hstep.2.1
          omega
        · have hle := ihres.2.1
          omega
      · by_cases hge : 1 ≤ acts.count (FAction.like t)
        · have hrec := hstep.2.2.2 (Or.inr hge)
          have hz := (ihres.1 hrec).2
          have hle := hstep.2.2.1
          omega
        · have hle := ihres.2.2
          omega

/-- One-step emission: under an open comment gate for feed id `f.tid`, a
completed iteration over any candidate `g` either emits the comment action
for `f.tid` or leaves `f.tid` unrecorded (with `f` itself untouched). -/
theorem processFeed_emit_or_preserve (cfg : MonitorConfig) (ora : FeedOracle)
    (st : St) (g f : Feed)
    (hauthf : (f.target_qq == cfg.qq_account) = false)
    (hnew : dictMem st.pl f.tid = false)
    (hallow : cfg.allow_comment = true) (hgate : ora.commentGate f.tid = true)
    (hex : (processFeed cfg ora st g).2.2 = none) :
    FAction.comment f.tid ∈ (processFeed cfg ora st g).2.1
    ∨ (dictMem (processFeed cfg ora st g).1.pl f.tid = false ∧ f ≠ g) := by
  by_cases h1 : (g.target_qq == cfg.qq_account) = true
  · have hfg : f ≠ g := by
      intro he
      rw [he, h1] at hauthf
      cases hauthf
    by_cases h2 : cfg.enable_auto_reply = true
    · by_cases h3 : (toReplyOf cfg st g).isEmpty = true
      · rw [processFeed_own_empty cfg ora st g h1 h3]
        exact Or.inr ⟨hnew, hfg⟩
      · rw [processFeed_own_replies cfg ora st g h1 h2
          (Bool.eq_false_iff.mpr h3)]
        exact Or.inr ⟨hnew, hfg⟩
    · rw [processFeed_own_noauto cfg ora st g h1 (Bool.eq_false_iff.mpr h2)]
      exact Or.inr ⟨hnew, hfg⟩
  · have h1f : (g.target_qq == cfg.qq_account) = false := by simpa using h1
    by_cases h2 : dictMem st.pl g.tid = true
    · rw [processFeed_other_skip cfg ora st g h1f h2]
      refine Or.inr ⟨hnew, fun he => ?_⟩
      rw [he] at hnew
      rw [hnew] at h2
      cases h2
    · have h2f : dictMem st.pl g.tid = false := by simpa using h2
      by_cases h3 : ora.llmCommentOk g = true
      · rw [processFeed_other_main cfg ora st g h1f h2f h3] at hex ⊢
        cases hca : commentStep cfg ora g.tid with
        | none =>
          rw [hca] at hex
          simp at hex
        | some ca =>
          cases hla : likeStep cfg ora g.tid with
          | none =>
            rw [hca, hla] at hex
            simp at hex
          | some la =>
            dsimp only
            by_cases htid : g.tid = f.tid
            · left
              have hgate2 : (cfg.allow_comment && ora.commentGate g.tid) = true := by
                rw [htid, hallow, hgate]
                rfl
              rw [commentStep_of_gate cfg ora g.tid hgate2] at hca
              by_cases hsend : ora.commentSendOk g.tid = true
              · rw [if_pos hsend] at hca
                have hcaeq : ca = [FAction.comment g.tid] :=
                  (Option.some.injEq _ _ ▸ hca).symm
                rw [hcaeq, htid]
                simp
              · rw [if_neg hsend] at hca
                cases hca
            · right
              constructor
              · show dictMem (insertFeedRecord cfg.feeds_cap st.pl g.tid)
                  f.tid = false
                unfold insertFeedRecord
                rw [evictOldest_eq_drop]
                apply dictMem_drop_false
                rw [dictMem_dictSet_of_ne st.pl g.tid f.tid [] htid]
                exact hnew
              · intro he
                rw [he] at htid
                exact htid rfl
      · rw [processFeed_other_llmfail cfg ora st g h1f h2f
          (Bool.eq_false_iff.mpr h3)] at hex
        simp at hex

/-- Across a successful pass: a fresh other-author feed with an open comment
gate gets its comment action emitted. -/
theorem checkFeedsLoop_emits (cfg : MonitorConfig) (ora : FeedOracle) :
    ∀ (feeds : List Feed) (st : St) (f : Feed),
      f ∈ feeds → (f.target_qq == cfg.qq_account) = false →
      dictMem st.pl f.tid = false →
      cfg.allow_comment = true → ora.commentGate f.tid = true →
      (checkFeedsLoop cfg ora feeds st).2.2.1 = true →
      FAction.comment f.tid ∈ (checkFeedsLoop cfg ora feeds st).2.1 := by
  intro feeds
  induction feeds with
  | nil =>
    intro st f hf
    simp at hf
  | cons g rest ih =>
    intro st f hf hauthf hnew hallow hgate hok
    rcases hpd : processFeed cfg ora st g with ⟨st1, acts, ex⟩
    cases ex with
    | some pr =>
      rcases pr with ⟨ok, msg⟩
      rw [checkFeedsLoop_cons_exit cfg ora g rest st st1 acts ok msg hpd] at hok
      exfalso
      have hnt := processFeed_exit_not_true cfg ora st g msg
      rw [hpd] at hnt
      dsimp only at hnt hok
      rw [hok] at hnt
      exact hnt rfl
    | none =>
      rw [checkFeedsLoop_cons_cont cfg ora g rest st st1 acts hpd] at hok ⊢
      dsimp only at hok ⊢
      have hstep := processFeed_emit_or_preserve cfg ora st g f hauthf hnew
        hallow hgate (by rw [hpd])
      rw [hpd] at hstep
      dsimp only at hstep
      rcases hstep with hstep | ⟨hpres, hne⟩
      · exact List.mem_append.mpr (Or.inl hstep)
      · have hfr : f ∈ rest := by
          rcases List.mem_cons.mp hf with rfl | hf2
          · exact absurd rfl hne
          · exact hf2
        exact List.mem_append.mpr
          (Or.inr (ih st1 f hfr hauthf hpres hallow hgate hok))

/-- C1: after a successful `check_feeds` pass (with cache room for every
item), every other-author item is recorded in `processed_list`; running the
pass again on the same unchanged snapshot is a no-op — same state, no
actions; across both passes at most one comment and one like are issued per
feed id; and a fresh other-author item whose comment gate is open receives
its comment action in the first pass (so exactly one reaction overall). -/
theorem c1_reacts_once (cfg : MonitorConfig) (ora : FeedOracle)
    (feeds : List Feed) (st0 st1 : St) (a1 : List FAction) (msg : String)
    (hsilent : (cfg.is_silent && !cfg.allow_like && !cfg.allow_comment) = false)
    (hrun : check_feeds cfg ora feeds st0 = (st1, a1, true, msg))
    (hcap1 : st0.pl.length + feeds.length ≤ cfg.feeds_cap)
    (hcap2 : st0.pc.length + feeds.length ≤ cfg.comments_cap) :
    (∀ f ∈ feeds, f.target_qq ≠ cfg.qq_account → dictMem st1.pl f.tid = true)
    ∧ check_feeds cfg ora feeds st1 = (st1, [], true, "success")
    ∧ (∀ t, a1.count (FAction.comment t) ≤ 1 ∧ a1.count (FAction.like t) ≤ 1)
    ∧ (∀ f ∈ feeds, f.target_qq ≠ cfg.qq_account →
        dictMem st0.pl f.tid = false → cfg.allow_comment = true →
        ora.commentGate f.tid = true → FAction.comment f.tid ∈ a1) := by
  have hsil : ¬((cfg.is_silent && !cfg.allow_like && !cfg.allow_comment) = true) := by
    simp [hsilent]
  unfold check_feeds at hrun
  rw [if_neg hsil] at hrun
  by_cases hlen : (feeds.length == 0) = true
  · have hfe : feeds = [] := by
      cases feeds with
      | nil => rfl
      | cons a l => simp at hlen
    subst hfe
    rw [if_pos hlen] at hrun
    simp only [Prod.mk.injEq] at hrun
    obtain ⟨h1, h2, -, -⟩ := hrun
    refine ⟨fun f hf => by simp at hf, ?_, ?_, fun f hf => by simp at hf⟩
    · unfold check_feeds
      rw [if_neg hsil, if_pos (by decide)]
    · intro t
      rw [← h2]
      simp
  · rw [if_neg hlen] at hrun
    have hmono := checkFeedsLoop_mono cfg ora feeds st0 hcap1 hcap2
    rw [hrun] at hmono
    dsimp only at hmono
    have hsettled : ∀ f ∈ feeds, feedSettled cfg st1 f := hmono.2.2.2.2 rfl
    refine ⟨fun f hf hne => (hsettled f hf).1 hne, ?_, ?_, ?_⟩
    · unfold check_feeds
      rw [if_neg hsil, if_neg hlen]
      exact checkFeedsLoop_noop cfg ora feeds st1 hsettled
    · intro t
      have hcnt := checkFeedsLoop_count cfg ora feeds st0 hcap1 hcap2
        (by rw [hrun]) t
      rw [hrun] at hcnt
      dsimp only at hcnt
      exact ⟨hcnt.2.1, hcnt.2.2⟩
    · intro f hf hne hnew0 hallow hgate
      have hbeq : (f.target_qq == cfg.qq_account) = false :=
        beq_eq_false_iff_ne.mpr hne
      have hem := checkFeedsLoop_emits cfg ora feeds st0 f hf hbeq hnew0
        hallow hgate (by rw [hrun])
      rw [hrun] at hem
      exact hem

/-- Witness for C1 at a concrete three-item snapshot (two other-author
feeds, one own feed with a pending comment). -/
theorem c1_reacts_once_witness :
    (∀ f ∈ [feedF1, feedOwn, feedF2], f.target_qq ≠ cfgFix.qq_account →
        dictMem c1StAfter.pl f.tid = true)
    ∧ check_feeds cfgFix oraAllOk [feedF1, feedOwn, feedF2] c1StAfter
        = (c1StAfter, [], true, "success")
    ∧ (∀ t, c1Acts.count (FAction.comment t) ≤ 1
        ∧ c1Acts.count (FAction.like t) ≤ 1)
    ∧ (∀ f ∈ [feedF1, feedOwn, feedF2], f.target_qq ≠ cfgFix.qq_account →
        dictMem (St.mk [] []).pl f.tid = false → cfgFix.allow_comment = true →
        oraAllOk.commentGate f.tid = true →
        FAction.comment f.tid ∈ c1Acts) :=
  c1_reacts_once cfgFix oraAllOk [feedF1, feedOwn, feedF2] ⟨[], []⟩ c1StAfter
    c1Acts "success" (by decide) (by rfl) (by decide) (by decide)

/-- C10: an other-author feed item reached without error whose comment and
like are both skipped by the silent-window permission or the probability
gates is still recorded in `processed_list` and the list is persisted (the
save action is the only effect); and any item whose id is recorded is
skipped entirely by a later pass. -/
theorem c10_gated_item_still_recorded (cfg : MonitorConfig) (ora : FeedOracle)
    (st : St) (f : Feed)
    (hauthor : (f.target_qq == cfg.qq_account) = false)
    (hnew : dictMem st.pl f.tid = false)
    (hllm : ora.llmCommentOk f = true)
    (hcgate : (cfg.allow_comment && ora.commentGate f.tid) = false)
    (hlgate : (cfg.allow_like && ora.likeGate f.tid) = false)
    (hcap : st.pl.length < cfg.feeds_cap) :
    processFeed cfg ora st f
      = ({ st with pl := dictSet st.pl f.tid [] }, [FAction.saveList], none)
    ∧ dictMem (dictSet st.pl f.tid []) f.tid = true
    ∧ (∀ st' : St, dictMem st'.pl f.tid = true →
        processFeed cfg ora st' f = (st', [], none)) := by
  refine ⟨?_, dictMem_dictSet_self st.pl f.tid [], fun st' hm =>
    processFeed_other_skip cfg ora st' f hauthor hm⟩
  rw [processFeed_other_main cfg ora st f hauthor hnew hllm]
  have hca : commentStep cfg ora f.tid = some [] := by
    unfold commentStep
    rw [if_neg (by simp [hcgate])]
  have hla : likeStep cfg ora f.tid = some [] := by
    unfold likeStep
    rw [if_neg (by simp [hlgate])]
  rw [hca, hla]
  dsimp only
  have hins : insertFeedRecord cfg.feeds_cap st.pl f.tid
      = dictSet st.pl f.tid [] := by
    unfold insertFeedRecord
    apply evictOldest_of_le
    rw [dictSet_length_of_not_mem st.pl f.tid [] hnew]
    omega
  rw [hins]
  rfl

/-- Witness for C10: with both gates closed, `feedF1` is recorded and only
the persistence action is issued. -/
theorem c10_gated_item_still_recorded_witness :
    processFeed cfgFix oraGatesClosed ⟨[], []⟩ feedF1
      = (⟨dictSet [] feedF1.tid [], []⟩, [FAction.saveList], none)
    ∧ dictMem (dictSet [] feedF1.tid []) feedF1.tid = true
    ∧ (∀ st' : St, dictMem st'.pl feedF1.tid = true →
        processFeed cfgFix oraGatesClosed st' feedF1 = (st', [], none)) :=
  c10_gated_item_still_recorded cfgFix oraGatesClosed ⟨[], []⟩ feedF1
    (by decide) (by decide) (by decide) (by decide) (by decide) (by decide)

end Maizone
